import Mathlib

/-!
Shallow embedding of the hugo-reader repository's validated-response cache
and multi-candidate endpoint resolution protocol.

Sources embedded:
* `internal/cache/cache.go` — `CacheEntry.IsExpired`, `Cache.BuildKey`,
  `Cache.Get`, `Cache.Set`, `Cache.Validate`, `Cache.Delete`,
  `Cache.Clear`, `Cache.CleanExpired`.
* `internal/tools/taxonomies/tools.go` — the primary endpoint loop of
  `Execute` (lines 132–185) and the individual-taxonomy discovery loop
  (lines 192–238).
* the search tool (`performHugoSearch`, `performContentScanSearch`,
  `SearchRequest.Validate`, the limit application in `Execute`).

Modelling conventions:
* byte payloads are `List Nat`;
* time is a natural-number clock `now`; Go's `time.Since(e.CachedAt) > e.TTL`
  becomes `e.ttl < now - e.cachedAt`;
* the cache's entry map is an association list with unique keys kept by
  construction (`set` removes the old binding before consing);
* the md5 hex digest used by `BuildKey` for keys longer than 200 bytes is
  abstracted as a function argument `hash : String → String`: no claim
  depends on the digest itself, only on when it is applied;
* Go's `net/url` parsing is modelled by `parseURL`, covering the
  scheme://host/path?query splitting that `BuildKey` relies on; a parse
  error (control character in the URL) yields `none`, matching the Go
  fallback branch;
* the injected fetch capability is a function from a path to a
  `FetchResult`; a transport error and an unreadable body are both
  `FetchResult.transportError`, matching the loops' `continue`-on-error.
-/

namespace HugoReader

/-- Byte payloads of cached HTTP bodies. -/
abbrev Bytes := List Nat

/-- `CacheEntry` from internal/cache/cache.go: payload, validators, write
time and per-entry TTL. -/
structure CacheEntry where
  data : Bytes
  etag : String
  lastModified : String
  cachedAt : Nat
  ttl : Nat
deriving DecidableEq

/-- `CacheEntry.IsExpired`: `time.Since(e.CachedAt) > e.TTL`, with the clock
passed explicitly. -/
def CacheEntry.isExpired (now : Nat) (e : CacheEntry) : Bool :=
  decide (e.ttl < now - e.cachedAt)

/-- The in-memory cache: entry map (association list, keys unique by
construction) and the configured default TTL. -/
structure Cache where
  entries : List (String × CacheEntry)
  defaultTTL : Nat
deriving DecidableEq

/-- Map lookup on the entry list. -/
def Cache.lookup (c : Cache) (k : String) : Option CacheEntry :=
  (c.entries.find? (fun p => p.1 == k)).map (·.2)

/-- `Cache.Delete`: idempotent removal of one key. -/
def Cache.deleteKey (c : Cache) (k : String) : Cache :=
  { c with entries := c.entries.filter (fun p => p.1 != k) }

/-- `Cache.Set`: overwrite the binding for `k` with a fresh entry stamped
`cachedAt := now` and the cache's default TTL. -/
def Cache.setEntry (now : Nat) (c : Cache) (k : String) (data : Bytes)
    (etag lastModified : String) : Cache :=
  { c with entries :=
      (k, ⟨data, etag, lastModified, now, c.defaultTTL⟩)
        :: c.entries.filter (fun p => p.1 != k) }

/-- `Cache.Get`: miss on absent key; an expired entry is deleted as a side
effect of the lookup and reported as a miss; otherwise the stored payload is
returned. -/
def Cache.get (now : Nat) (c : Cache) (k : String) : Option Bytes × Cache :=
  match c.lookup k with
  | none => (none, c)
  | some e =>
    if e.isExpired now then (none, c.deleteKey k) else (some e.data, c)

/-- `Cache.Clear`: drop all entries. -/
def Cache.clearAll (c : Cache) : Cache :=
  { c with entries := [] }

/-- `Cache.CleanExpired`: remove every currently expired entry, returning
how many were removed. -/
def Cache.cleanExpired (now : Nat) (c : Cache) : Nat × Cache :=
  let expired := c.entries.filter (fun p => p.2.isExpired now)
  (expired.length,
   { c with entries := c.entries.filter (fun p => !p.2.isExpired now) })

/-- Parsed URL: the fields of Go's `url.URL` that `BuildKey` reads or
writes. -/
structure URL where
  scheme : String
  host : String
  path : String
  rawQuery : String
deriving DecidableEq

/-- A control character makes Go's `url.Parse` fail. -/
def hasCtlChar (s : String) : Bool :=
  s.toList.any (fun ch => ch.toNat < 32 || ch.toNat == 127)

/-- Split a character list at the first `://`, returning the part before
and the part after; `none` when there is no `://`. -/
def splitScheme : List Char → Option (List Char × List Char)
  | [] => none
  | ':' :: '/' :: '/' :: rest => some ([], rest)
  | c :: cs =>
    match splitScheme cs with
    | none => none
    | some (pre, post) => some (c :: pre, post)

/-- Modelled subset of Go `url.Parse`: split `scheme://rest`, then split
`rest` into host (up to the first slash), path, and raw query (after the
first question mark); a string without `://` parses as a bare path with an
empty host. `none` models the parse-error branch. -/
def parseURL (s : String) : Option URL :=
  if hasCtlChar s then none
  else
    match splitScheme s.toList with
    | none => some ⟨"", "", s, ""⟩
    | some (schemeChars, rest) =>
      let beforeQ := rest.takeWhile (fun ch => ch ≠ '?')
      let afterQ := (rest.dropWhile (fun ch => ch ≠ '?')).drop 1
      let host := beforeQ.takeWhile (fun ch => ch ≠ '/')
      let path := beforeQ.dropWhile (fun ch => ch ≠ '/')
      some ⟨schemeChars.asString, host.asString, path.asString,
        afterQ.asString⟩

/-- Reassembly of a URL, as `url.URL.String` renders the fields `BuildKey`
uses. -/
def URL.render (u : URL) : String :=
  (if u.scheme = "" && u.host = "" then "" else u.scheme ++ "://" ++ u.host)
    ++ u.path
    ++ (if u.rawQuery = "" then "" else "?" ++ u.rawQuery)

/-- Value bound to key `k` in a parameter list (Go map indexing). -/
def paramValue (params : List (String × String)) (k : String) : String :=
  ((params.find? (fun p => p.1 == k)).map (·.2)).getD ""

/-- Lexicographic order on character lists by code point, the order
`sort.Strings` uses. -/
def charListLe : List Char → List Char → Bool
  | [], _ => true
  | _ :: _, [] => false
  | a :: as, b :: bs =>
    if a.toNat < b.toNat then true
    else if b.toNat < a.toNat then false
    else charListLe as bs

/-- String order used when sorting parameter names. -/
def strLe (a b : String) : Bool := charListLe a.toList b.toList

/-- `strLe` as a decidable relation for `List.insertionSort`. -/
def strLeR (a b : String) : Prop := strLe a b = true

instance : DecidableRel strLeR := fun a b =>
  (inferInstance : Decidable (strLe a b = true))

/-- The query string `BuildKey` appends: parameter names sorted, each
rendered `k=v`, joined with `&`. -/
def queryOfParams (params : List (String × String)) : String :=
  String.intercalate "&"
    ((List.insertionSort strLeR (params.map Prod.fst)).map
      (fun k => k ++ "=" ++ paramValue params k))

/-- `Cache.BuildKey`: parse the base URL (fallback to concatenation on a
parse error or a host-less base with a non-empty path), substitute the
endpoint path, append the parameters sorted by name as `k=v` pairs joined
with `&`, and collapse keys longer than 200 bytes to `hash:` plus a digest.
The digest is the `hash` argument. The parameter mapping is given as an
association list (one enumeration of the Go map). -/
def buildKey (hash : String → String) (baseURL endpoint : String)
    (params : List (String × String)) : String :=
  match parseURL baseURL with
  | none => baseURL ++ endpoint
  | some u =>
    if u.host = "" && u.path ≠ "" then baseURL ++ endpoint
    else
      let u1 : URL := { u with path := endpoint }
      let u2 : URL :=
        if params.length > 0 then { u1 with rawQuery := queryOfParams params }
        else u1
      let key := u2.render
      if key.length > 200 then "hash:" ++ hash key else key

/-! ## Resolver: the multi-candidate endpoint loops -/

/-- Result of one invocation of the injected fetch capability
(`httpClient.Get` plus `io.ReadAll` of the body): a transport error or an
unreadable body is `transportError`; otherwise the status code, the body,
and the `ETag` / `Last-Modified` response headers. -/
inductive FetchResult where
  | transportError
  | response (status : Nat) (body : Bytes) (etag lastModified : String)
deriving DecidableEq

/-- One endpoint candidate (`EndpointConfig`): path, query parameters (one
enumeration of the Go map) and the per-candidate validator. -/
structure Candidate where
  path : String
  params : List (String × String)
  validator : Bytes → Bool

/-- Observable side effects of a resolution, in the order they occur. -/
inductive Event where
  | cacheDeleted (key : String)
  | fetchInvoked (path : String)
  | cacheStored (key : String)
deriving DecidableEq

/-- Result of a whole resolution: the first validated payload together with
the endpoint that produced it and whether it came from the cache, or
exhaustion of the candidate list. -/
inductive Outcome where
  | satisfied (payload : Bytes) (endpoint : String) (fromCache : Bool)
  | unsatisfied
deriving DecidableEq

/-- The cache key a candidate uses (`BuildKey(siteURL.String(), path,
params)`). -/
def candKey (hash : String → String) (base : String) (c : Candidate) :
    String :=
  buildKey hash base c.path c.params

/-- The network half of one candidate's processing in the taxonomies
`Execute` loop (tools.go 152–184) and `performHugoSearch` (part_001
586–623): invoke the fetch; on transport error or a non-200 status,
continue; on a 200 body run the validator; a validated body is stored in
the cache and returned, a rejected body is not cached and the loop
continues. -/
def fetchCandidate (hash : String → String) (now : Nat) (base : String)
    (fetch : String → FetchResult) (c : Candidate) (st : Cache)
    (ev : List Event) : Option (Bytes × Bool) × Cache × List Event :=
  match fetch c.path with
  | FetchResult.transportError => (none, st, ev ++ [Event.fetchInvoked c.path])
  | FetchResult.response status body etag lastModified =>
    if status = 200 then
      if c.validator body then
        (some (body, false),
         st.setEntry now (candKey hash base c) body etag lastModified,
         (ev ++ [Event.fetchInvoked c.path]) ++
           [Event.cacheStored (candKey hash base c)])
      else (none, st, ev ++ [Event.fetchInvoked c.path])
    else (none, st, ev ++ [Event.fetchInvoked c.path])

/-- One candidate's processing in the taxonomies `Execute` loop (tools.go
132–185) and `performHugoSearch` (part_001 535–624): consult the cache
first; a validator-passing hit is returned at once with no fetch; a hit
that fails the validator is deleted and the same candidate is fetched from
the network; a miss goes straight to the network. Returns the payload (with
its from-cache flag) if this candidate satisfied the request. -/
def stepCandidate (hash : String → String) (now : Nat) (base : String)
    (fetch : String → FetchResult) (c : Candidate) (st : Cache) :
    Option (Bytes × Bool) × Cache × List Event :=
  match Cache.get now st (candKey hash base c) with
  | (some data, st1) =>
    if c.validator data then (some (data, true), st1, [])
    else
      fetchCandidate hash now base fetch c
        (st1.deleteKey (candKey hash base c))
        [Event.cacheDeleted (candKey hash base c)]
  | (none, st1) => fetchCandidate hash now base fetch c st1 []

/-- The whole resolution: candidates in the caller-supplied order, stopping
at the first that yields a payload; exhaustion is `unsatisfied`. -/
def resolveAux (hash : String → String) (now : Nat) (base : String)
    (fetch : String → FetchResult) :
    List Candidate → Cache → Outcome × Cache × List Event
  | [], st => (Outcome.unsatisfied, st, [])
  | c :: cs, st =>
    match stepCandidate hash now base fetch c st with
    | (some (data, fromCache), st1, ev) =>
      (Outcome.satisfied data c.path fromCache, st1, ev)
    | (none, st1, ev) =>
      match resolveAux hash now base fetch cs st1 with
      | (out, st2, ev2) => (out, st2, ev ++ ev2)

/-- Runs a candidate list recording state and events, provided every
candidate fails; `none` as soon as some candidate succeeds. -/
def runFails (hash : String → String) (now : Nat) (base : String)
    (fetch : String → FetchResult) :
    List Candidate → Cache → Option (Cache × List Event)
  | [], st => some (st, [])
  | c :: cs, st =>
    match stepCandidate hash now base fetch c st with
    | (some _, _, _) => none
    | (none, st1, ev) =>
      match runFails hash now base fetch cs st1 with
      | none => none
      | some (st2, ev2) => some (st2, ev ++ ev2)

/-- One candidate's processing in `performContentScanSearch` (part_001
641–700): a validator-passing cache hit is used; a hit that fails the
validator is deleted and the loop CONTINUES to the next candidate without
fetching this one; a miss is fetched, and only a 200, validator-passing
body is cached and used. -/
def stepCandidateScan (hash : String → String) (now : Nat) (base : String)
    (fetch : String → FetchResult) (c : Candidate) (st : Cache) :
    Option (Bytes × Bool) × Cache × List Event :=
  match Cache.get now st (candKey hash base c) with
  | (some data, st1) =>
    if c.validator data then (some (data, true), st1, [])
    else (none, st1.deleteKey (candKey hash base c),
      [Event.cacheDeleted (candKey hash base c)])
  | (none, st1) => fetchCandidate hash now base fetch c st1 []

/-- The content-scan resolution loop built from `stepCandidateScan`. -/
def resolveScanAux (hash : String → String) (now : Nat) (base : String)
    (fetch : String → FetchResult) :
    List Candidate → Cache → Outcome × Cache × List Event
  | [], st => (Outcome.unsatisfied, st, [])
  | c :: cs, st =>
    match stepCandidateScan hash now base fetch c st with
    | (some (data, fromCache), st1, ev) =>
      (Outcome.satisfied data c.path fromCache, st1, ev)
    | (none, st1, ev) =>
      match resolveScanAux hash now base fetch cs st1 with
      | (out, st2, ev2) => (out, st2, ev ++ ev2)

/-- One endpoint of the taxonomies individual-discovery loop (tools.go
192–238): cached data is used without any validation; otherwise the
endpoint is fetched and a 200 body is CACHED UNCONDITIONALLY (the
`taxonomies`-shape check happens only afterwards, and only filters what is
reported, not what is cached). Returns the response data this endpoint
contributed, if any. -/
def discoverStep (hash : String → String) (now : Nat) (base : String)
    (fetch : String → FetchResult) (path : String) (st : Cache) :
    Option Bytes × Cache × List Event :=
  match Cache.get now st (buildKey hash base path []) with
  | (some data, st1) => (some data, st1, [])
  | (none, st1) =>
    match fetch path with
    | FetchResult.transportError => (none, st1, [Event.fetchInvoked path])
    | FetchResult.response status body etag lastModified =>
      if status = 200 then
        (some body,
         st1.setEntry now (buildKey hash base path []) body etag
           lastModified,
         [Event.fetchInvoked path,
           Event.cacheStored (buildKey hash base path [])])
      else (none, st1, [Event.fetchInvoked path])

/-- The whole discovery loop: fold over the individual taxonomy endpoints,
accumulating the names whose response data passes the `taxonomies` shape
check (`gjson` parse abstracted as `check`). -/
def discoverLoop (hash : String → String) (now : Nat) (base : String)
    (fetch : String → FetchResult) (check : Bytes → Bool) :
    List String → Cache → List String × Cache × List Event
  | [], st => ([], st, [])
  | p :: ps, st =>
    let (res, st1, ev) := discoverStep hash now base fetch p st
    let (names, st2, ev2) := discoverLoop hash now base fetch check ps st1
    match res with
    | some data =>
      if check data then (p :: names, st2, ev ++ ev2)
      else (names, st2, ev ++ ev2)
    | none => (names, st2, ev ++ ev2)

/-! ## `Cache.Validate`: the conditional-revalidation operation

`Cache.Validate` (cache.go 163–215) is the one Cache operation that talks
to the network: on an expired entry it issues a conditional `HEAD` request
through the cache's own HTTP client. The request construction is
abstracted as `mkReqOk : String → Bool` (Go's `http.NewRequest` failing on
a malformed URL) and the `HEAD` round trip as `doHead : String → Option
Nat` (`none` a transport error, `some status` a response). The returned
`List String` records the URLs of the HTTP requests actually issued. -/

/-- Update the `cachedAt` stamp of key `k` to `now` (the 304 branch of
`Cache.Validate`). -/
def Cache.touch (now : Nat) (c : Cache) (k : String) : Cache :=
  { c with entries :=
      c.entries.map (fun p =>
        if p.1 == k then (p.1, { p.2 with cachedAt := now }) else p) }

/-- `Cache.Validate`: an absent key misses; an unexpired entry is returned
with no network traffic; an expired entry triggers a conditional `HEAD`
request — a transport error keeps the stale entry, a 304 refreshes its
timestamp, any other status deletes it. A request that cannot even be
constructed deletes the entry without network traffic. -/
def Cache.validateEntry (now : Nat) (mkReqOk : String → Bool)
    (doHead : String → Option Nat) (c : Cache) (k url : String) :
    (Option Bytes × Cache) × List String :=
  match c.lookup k with
  | none => ((none, c), [])
  | some e =>
    if e.isExpired now = false then ((some e.data, c), [])
    else if mkReqOk url = false then ((none, c.deleteKey k), [])
    else
      match doHead url with
      | none => ((some e.data, c), [url])
      | some status =>
        if status = 304 then ((some e.data, c.touch now k), [url])
        else ((none, c.deleteKey k), [url])

/-! ## Search tool: request validation and the result limit -/

/-- `SearchRequest` of the search tool (part_001 389–396); `limit` is a Go
`int`, modelled as `Int`. -/
structure SearchRequest where
  hugoSitePath : String
  query : String
  contentType : String
  taxonomy : String
  term : String
  limit : Int
deriving DecidableEq

/-- `SearchRequest.Validate` (part_001 444–460): required fields, then the
limit: zero becomes the default 20, anything else outside 1..100 is an
error. The Go method mutates the receiver; the model returns the updated
request. -/
def SearchRequest.validateReq (r : SearchRequest) :
    Except String SearchRequest :=
  if r.hugoSitePath = "" then Except.error "hugo_site_path is required"
  else if r.query = "" then Except.error "query is required"
  else if r.limit = 0 then Except.ok { r with limit := 20 }
  else if r.limit < 1 ∨ r.limit > 100 then
    Except.error "limit must be between 1 and 100"
  else Except.ok r

/-- The limit application in the search tool's `Execute` (part_001
504–510): truncate the result list when it is longer than the limit. -/
def applyLimit {α : Type} (results : List α) (limit : Int) : List α :=
  if (results.length : Int) > limit then results.take limit.toNat
  else results

/-! ## Order facts about the comparator used to sort parameter names -/

theorem charListLe_total : ∀ a b : List Char,
    charListLe a b = true ∨ charListLe b a = true
  | [], _ => Or.inl rfl
  | _ :: _, [] => Or.inr rfl
  | a :: as, b :: bs => by
    by_cases h1 : a.toNat < b.toNat
    · left
      simp [charListLe, h1]
    · by_cases h2 : b.toNat < a.toNat
      · right
        simp [charListLe, h1, h2]
      · rcases charListLe_total as bs with h | h
        · left
          simp [charListLe, h1, h2, h]
        · right
          simp [charListLe, h1, h2, h]

theorem charListLe_trans : ∀ a b c : List Char,
    charListLe a b = true → charListLe b c = true → charListLe a c = true
  | [], _, _, _, _ => rfl
  | _ :: _, [], _, h, _ => by simp [charListLe] at h
  | _ :: _, _ :: _, [], _, h => by simp [charListLe] at h
  | a :: as, b :: bs, c :: cs, h1, h2 => by
    simp only [charListLe] at h1 h2 ⊢
    split_ifs at h1 h2 ⊢ <;>
      first
        | rfl
        | omega
        | exact charListLe_trans as bs cs h1 h2

theorem charListLe_antisymm : ∀ a b : List Char,
    charListLe a b = true → charListLe b a = true → a = b
  | [], [], _, _ => rfl
  | [], _ :: _, _, h => by simp [charListLe] at h
  | _ :: _, [], h, _ => by simp [charListLe] at h
  | a :: as, b :: bs, h1, h2 => by
    simp only [charListLe] at h1 h2
    by_cases hab : a.toNat < b.toNat
    · rw [if_neg (by omega : ¬b.toNat < a.toNat), if_pos hab] at h2
      exact absurd h2 (by simp)
    · by_cases hba : b.toNat < a.toNat
      · rw [if_neg hab, if_pos hba] at h1
        exact absurd h1 (by simp)
      · rw [if_neg hab, if_neg hba] at h1
        rw [if_neg hba, if_neg hab] at h2
        have hval : a.toNat = b.toNat := by omega
        have habe : a = b := Char.ext (UInt32.ext hval)
        rw [habe, charListLe_antisymm as bs h1 h2]

instance : IsTotal String strLeR :=
  ⟨fun a b => charListLe_total a.toList b.toList⟩

instance : IsTrans String strLeR :=
  ⟨fun a b c => charListLe_trans a.toList b.toList c.toList⟩

instance : IsAntisymm String strLeR :=
  ⟨fun a b h1 h2 => by
    have := charListLe_antisymm a.toList b.toList h1 h2
    exact String.toList_inj.mp this⟩

/-! ## Cache lookup lemmas -/

theorem find?_filter_ne {β : Type} (k k' : String) (l : List (String × β)) :
    (l.filter (fun p => p.1 != k)).find? (fun p => p.1 == k') =
      if k' = k then none else l.find? (fun p => p.1 == k') := by
  induction l with
  | nil => simp
  | cons a l ih =>
    by_cases hak : a.1 = k
    · by_cases hk : k' = k <;>
        simp [List.filter_cons, hak, hk, ih, List.find?_cons, Ne.symm]
    · by_cases hak' : a.1 = k'
      · by_cases hk : k' = k
        · exact absurd (hak'.trans hk) hak
        · simp [List.filter_cons, hak, hak', hk, List.find?_cons]
      · by_cases hk : k' = k <;>
          simp [List.filter_cons, hak, hak', hk, ih, List.find?_cons]

theorem Cache.lookup_deleteKey (c : Cache) (k k' : String) :
    (c.deleteKey k).lookup k' = if k' = k then none else c.lookup k' := by
  show ((c.entries.filter (fun p => p.1 != k)).find?
      (fun p => p.1 == k')).map (·.2) = _
  rw [find?_filter_ne]
  by_cases hk : k' = k <;> simp [hk, Cache.lookup]

theorem Cache.lookup_setEntry (now : Nat) (c : Cache)
    (k k' : String) (data : Bytes) (etag lastModified : String) :
    (c.setEntry now k data etag lastModified).lookup k' =
      if k' = k then some ⟨data, etag, lastModified, now, c.defaultTTL⟩
      else c.lookup k' := by
  show ((((k, (⟨data, etag, lastModified, now, c.defaultTTL⟩ : CacheEntry))
      :: c.entries.filter (fun p => p.1 != k)).find?
        (fun p => p.1 == k')).map (·.2)) = _
  by_cases hk : k' = k
  · simp [List.find?_cons, hk]
  · rw [List.find?_cons_of_neg _ (by simpa using fun h => hk h.symm)]
    rw [find?_filter_ne, if_neg hk]
    simp [Cache.lookup, hk]

/-! ## `find?` on a permuted association list with unique keys -/

theorem find?_eq_of_perm_of_nodupKeys {β : Type} {ps qs : List (String × β)}
    (h : ps.Perm qs) (hd : (ps.map Prod.fst).Nodup) (k : String) :
    ps.find? (fun p => p.1 == k) = qs.find? (fun p => p.1 == k) := by
  induction h with
  | nil => rfl
  | cons x h ih =>
    have hd' := hd
    simp only [List.map_cons, List.nodup_cons] at hd'
    by_cases hxk : x.1 = k
    · simp [hxk]
    · simp only [List.find?_cons_of_neg _
        (p := fun q : String × β => q.1 == k) (a := x) (by simp [hxk])]
      exact ih hd'.2
  | swap x y l =>
    have hyx : y.1 ≠ x.1 := by
      simp only [List.map_cons, List.nodup_cons, List.mem_cons] at hd
      exact fun he => hd.1 (Or.inl he)
    by_cases hyk : y.1 = k
    · have hxk : x.1 ≠ k := fun hxk => hyx (hyk.trans hxk.symm)
      simp [hyk, hxk]
    · by_cases hxk : x.1 = k <;> simp [hyk, hxk]
  | trans h1 h2 ih1 ih2 =>
    have hd2 := (h1.map Prod.fst).nodup_iff.mp hd
    exact (ih1 hd).trans (ih2 hd2)

theorem paramValue_eq_of_perm {ps qs : List (String × String)}
    (h : ps.Perm qs) (hd : (ps.map Prod.fst).Nodup) (k : String) :
    paramValue ps k = paramValue qs k := by
  unfold paramValue
  rw [find?_eq_of_perm_of_nodupKeys h hd]

theorem queryOfParams_eq_of_perm {ps qs : List (String × String)}
    (h : ps.Perm qs) (hd : (ps.map Prod.fst).Nodup) :
    queryOfParams ps = queryOfParams qs := by
  unfold queryOfParams
  have hkeys : List.insertionSort strLeR (ps.map Prod.fst) =
      List.insertionSort strLeR (qs.map Prod.fst) := by
    refine List.eq_of_perm_of_sorted (r := strLeR) ?_ ?_ ?_
    · exact (List.perm_insertionSort _ _).trans
        ((h.map Prod.fst).trans (List.perm_insertionSort _ _).symm)
    · exact List.sorted_insertionSort strLeR _
    · exact List.sorted_insertionSort strLeR _
  rw [hkeys]
  congr 1
  exact List.map_congr_left fun k _ => by
    rw [paramValue_eq_of_perm h hd]

/-- Key construction is invariant under re-enumeration of the parameter
mapping: shared helper behind the determinism claims. -/
theorem buildKey_eq_of_perm (hash : String → String) (base ep : String)
    {ps qs : List (String × String)}
    (h : ps.Perm qs) (hd : (ps.map Prod.fst).Nodup) :
    buildKey hash base ep ps = buildKey hash base ep qs := by
  unfold buildKey
  cases parseURL base with
  | none => rfl
  | some u =>
    simp only [h.length_eq, queryOfParams_eq_of_perm h hd]

/-! ## Claim theorems -/

/-- C5: for every key, `get` returns not-found when the key is absent or
its entry is expired (expired iff `now - cachedAt > ttl`), returns the
stored payload otherwise, and an expired entry discovered by `get` is
deleted from the cache as a side effect of that lookup. -/
theorem get_miss_expiry_and_lazy_eviction (now : Nat) (st : Cache)
    (k : String) :
    (∀ e : CacheEntry, e.isExpired now = true ↔ now - e.cachedAt > e.ttl)
    ∧ (st.lookup k = none → Cache.get now st k = (none, st))
    ∧ (∀ e, st.lookup k = some e → e.isExpired now = true →
        Cache.get now st k = (none, st.deleteKey k)
          ∧ (st.deleteKey k).lookup k = none)
    ∧ (∀ e, st.lookup k = some e → e.isExpired now = false →
        Cache.get now st k = (some e.data, st)) := by
  refine ⟨fun e => by simp [CacheEntry.isExpired, gt_iff_lt], ?_, ?_, ?_⟩
  · intro h
    simp [Cache.get, h]
  · intro e he hex
    refine ⟨by simp [Cache.get, he, hex], ?_⟩
    rw [Cache.lookup_deleteKey, if_pos rfl]
  · intro e he hex
    simp [Cache.get, he, hex]

theorem get_miss_expiry_and_lazy_eviction_witness :
    Cache.get 10 ⟨[("k", ⟨[1], "", "", 0, 5⟩)], 5⟩ "k" =
      (none, Cache.deleteKey ⟨[("k", ⟨[1], "", "", 0, 5⟩)], 5⟩ "k")
    ∧ Cache.get 10 ⟨[("k", ⟨[2], "", "", 8, 5⟩)], 5⟩ "k" =
      (some [2], ⟨[("k", ⟨[2], "", "", 8, 5⟩)], 5⟩) :=
  ⟨((get_miss_expiry_and_lazy_eviction 10 ⟨[("k", ⟨[1], "", "", 0, 5⟩)], 5⟩
      "k").2.2.1 ⟨[1], "", "", 0, 5⟩ (by decide) (by decide)).1,
    (get_miss_expiry_and_lazy_eviction 10 ⟨[("k", ⟨[2], "", "", 8, 5⟩)], 5⟩
      "k").2.2.2 ⟨[2], "", "", 8, 5⟩ (by decide) (by decide)⟩

/-- C6: `buildKey` is deterministic and invariant under reordering of the
query-parameter mapping: any two enumerations of the same parameter
mapping produce the identical key, for every base identity and path. -/
theorem buildKey_invariant_param_order (hash : String → String)
    (base ep : String) (ps qs : List (String × String))
    (hperm : ps.Perm qs) (hnodup : (ps.map Prod.fst).Nodup) :
    buildKey hash base ep ps = buildKey hash base ep qs :=
  buildKey_eq_of_perm hash base ep hperm hnodup

theorem buildKey_invariant_param_order_witness :
    buildKey (fun s => s) "https://example.com" "/index.json"
      [("a", "1"), ("b", "2")] =
    buildKey (fun s => s) "https://example.com" "/index.json"
      [("b", "2"), ("a", "1")] :=
  buildKey_invariant_param_order (fun s => s) "https://example.com"
    "/index.json" _ _ (by decide) (by decide)

/-- C1: candidates are attempted strictly in the caller-supplied order and
the resolution returns the payload of the first candidate that succeeds;
the final state and the event trace contain contributions only from the
failing prefix and the succeeding candidate — no later candidate is
attempted. -/
theorem resolve_first_success_in_order (hash : String → String) (now : Nat)
    (base : String) (fetch : String → FetchResult)
    (pre : List Candidate) (c : Candidate) (post : List Candidate)
    (st st1 st2 : Cache) (ev1 ev2 : List Event) (data : Bytes) (b : Bool)
    (hpre : runFails hash now base fetch pre st = some (st1, ev1))
    (hc : stepCandidate hash now base fetch c st1 =
      (some (data, b), st2, ev2)) :
    resolveAux hash now base fetch (pre ++ c :: post) st =
      (Outcome.satisfied data c.path b, st2, ev1 ++ ev2) := by
  induction pre generalizing st ev1 with
  | nil =>
    simp only [runFails, Option.some.injEq, Prod.mk.injEq] at hpre
    obtain ⟨hst, hev⟩ := hpre
    subst hst hev
    simp only [List.nil_append, resolveAux, hc, List.append_nil]
  | cons c0 cs ih =>
    simp only [runFails] at hpre
    cases hstep : stepCandidate hash now base fetch c0 st with
    | mk o rest =>
      obtain ⟨sta, eva⟩ := rest
      rw [hstep] at hpre
      cases o with
      | some v => simp at hpre
      | none =>
        simp only at hpre
        cases hrun : runFails hash now base fetch cs sta with
        | none => rw [hrun] at hpre; simp at hpre
        | some p =>
          obtain ⟨stb, evb⟩ := p
          rw [hrun] at hpre
          simp only [Option.some.injEq, Prod.mk.injEq] at hpre
          obtain ⟨hst, hev⟩ := hpre
          subst hst
          have hres : resolveAux hash now base fetch
              (cs.append (c :: post)) sta =
              (Outcome.satisfied data c.path b, st2, evb ++ ev2) :=
            ih sta evb hrun
          simp only [List.cons_append, resolveAux, hstep, hres, ← hev,
            List.append_assoc]

/-- C2: a valid (present, unexpired, validator-passing) cache entry under a
candidate's key makes that candidate's processing return the cached payload
at once, with an unchanged cache and an empty event trace — in particular
the fetch capability is never invoked for that candidate. -/
theorem cache_hit_short_circuits_fetch (hash : String → String) (now : Nat)
    (base : String) (fetch : String → FetchResult) (c : Candidate)
    (st : Cache) (e : CacheEntry)
    (hlook : st.lookup (candKey hash base c) = some e)
    (hfresh : e.isExpired now = false)
    (hval : c.validator e.data = true) :
    stepCandidate hash now base fetch c st = (some (e.data, true), st, [])
      ∧ ∀ p, Event.fetchInvoked p ∉
        (stepCandidate hash now base fetch c st).2.2 := by
  have h : stepCandidate hash now base fetch c st =
      (some (e.data, true), st, []) := by
    simp [stepCandidate, Cache.get, hlook, hfresh, hval]
  exact ⟨h, fun p => by simp [h]⟩

/-- C7: when every candidate in the list fails (fetch failure or failed
validation), the resolution returns the `unsatisfied` outcome — the only
aggregate "no data" report; and a candidate-level transport failure is
recovered locally: that candidate merely yields no payload, so the loop
advances instead of aborting. -/
theorem exhaustion_returns_unsatisfied (hash : String → String) (now : Nat)
    (base : String) (fetch : String → FetchResult) :
    (∀ cs (st st' : Cache) (ev : List Event),
      runFails hash now base fetch cs st = some (st', ev) →
      resolveAux hash now base fetch cs st = (Outcome.unsatisfied, st', ev))
    ∧ (∀ (c : Candidate) (st : Cache),
        (Cache.get now st (candKey hash base c)).1 = none →
        fetch c.path = FetchResult.transportError →
        (stepCandidate hash now base fetch c st).1 = none) := by
  constructor
  · intro cs
    induction cs with
    | nil =>
      intro st st' ev hrun
      simp only [runFails, Option.some.injEq, Prod.mk.injEq] at hrun
      obtain ⟨hst, hev⟩ := hrun
      simp [resolveAux, hst, hev]
    | cons c0 cs ih =>
      intro st st' ev hrun
      simp only [runFails] at hrun
      cases hstep : stepCandidate hash now base fetch c0 st with
      | mk o rest =>
        obtain ⟨sta, eva⟩ := rest
        rw [hstep] at hrun
        cases o with
        | some v => simp at hrun
        | none =>
          simp only at hrun
          cases hrec : runFails hash now base fetch cs sta with
          | none => rw [hrec] at hrun; simp at hrun
          | some p =>
            obtain ⟨stb, evb⟩ := p
            rw [hrec] at hrun
            simp only [Option.some.injEq, Prod.mk.injEq] at hrun
            obtain ⟨hst, hev⟩ := hrun
            subst hst
            simp only [resolveAux, hstep, ih sta stb evb hrec, ← hev]
  · intro c st hmiss hfail
    cases hget : Cache.get now st (candKey hash base c) with
    | mk o st1 =>
      rw [hget] at hmiss
      simp only at hmiss
      subst hmiss
      simp [stepCandidate, hget, fetchCandidate, hfail]

/-! ## Concrete fixtures used by witnesses and counterexamples -/

/-- Identity digest: concrete stand-in for the md5 hex digest (keys in the
fixtures stay under the 200-byte threshold, so it is never applied). -/
def idHash : String → String := fun s => s

def exBase : String := "https://e.com"

/-- Accepts exactly the payload `[1]`. -/
def exValidator : Bytes → Bool := fun d => d == [1]

/-- Stub fetch: 404 on `/a`, 200 with body `[1]` elsewhere. -/
def exFetch : String → FetchResult := fun p =>
  if p == "/a" then FetchResult.response 404 [] "" ""
  else FetchResult.response 200 [1] "" ""

/-- Stub fetch: 404 everywhere. -/
def exFetch404 : String → FetchResult := fun _ =>
  FetchResult.response 404 [] "" ""

/-- Stub fetch: transport error everywhere. -/
def exFetchErr : String → FetchResult := fun _ =>
  FetchResult.transportError

def candA : Candidate := ⟨"/a", [], exValidator⟩
def candB : Candidate := ⟨"/b", [], exValidator⟩
def candC : Candidate := ⟨"/c", [], exValidator⟩

def emptyCache : Cache := ⟨[], 300⟩

theorem resolve_first_success_in_order_witness :
    resolveAux idHash 0 exBase exFetch [candA, candB, candC] emptyCache =
      (Outcome.satisfied [1] "/b" false,
        ⟨[("https://e.com/b", ⟨[1], "", "", 0, 300⟩)], 300⟩,
        [Event.fetchInvoked "/a", Event.fetchInvoked "/b",
          Event.cacheStored "https://e.com/b"]) :=
  resolve_first_success_in_order idHash 0 exBase exFetch
    [candA] candB [candC] emptyCache emptyCache
    ⟨[("https://e.com/b", ⟨[1], "", "", 0, 300⟩)], 300⟩
    [Event.fetchInvoked "/a"]
    [Event.fetchInvoked "/b", Event.cacheStored "https://e.com/b"]
    [1] false (by decide) (by decide)

theorem cache_hit_short_circuits_fetch_witness :
    stepCandidate idHash 0 exBase exFetch candB
      ⟨[("https://e.com/b", ⟨[1], "", "", 0, 300⟩)], 300⟩ =
      (some ([1], true),
        ⟨[("https://e.com/b", ⟨[1], "", "", 0, 300⟩)], 300⟩, []) :=
  (cache_hit_short_circuits_fetch idHash 0 exBase exFetch candB
    ⟨[("https://e.com/b", ⟨[1], "", "", 0, 300⟩)], 300⟩
    ⟨[1], "", "", 0, 300⟩ (by decide) (by decide) (by decide)).1

theorem exhaustion_returns_unsatisfied_witness :
    resolveAux idHash 0 exBase exFetch404 [candA, candC] emptyCache =
      (Outcome.unsatisfied, emptyCache,
        [Event.fetchInvoked "/a", Event.fetchInvoked "/c"])
    ∧ (stepCandidate idHash 0 exBase exFetchErr candA emptyCache).1 =
      none :=
  ⟨(exhaustion_returns_unsatisfied idHash 0 exBase exFetch404).1
      [candA, candC] emptyCache emptyCache
      [Event.fetchInvoked "/a", Event.fetchInvoked "/c"] (by decide),
    (exhaustion_returns_unsatisfied idHash 0 exBase exFetchErr).2
      candA emptyCache (by decide) (by decide)⟩

def scanC1 : Candidate := ⟨"/index.json", [], exValidator⟩

def scanC2 : Candidate := ⟨"/content/index.json", [], exValidator⟩

/-- Cache seeded under `scanC1`'s key with a payload that fails the
validator (and is not expired at time 0). -/
def seededScanCache : Cache :=
  ⟨[("https://e.com/index.json", ⟨[9], "", "", 0, 300⟩)], 300⟩

/-- C3 counterexample: in the content-scan query operation
(`performContentScanSearch`), a cached payload that fails its validator is
deleted and the loop advances to the next candidate — the fetch capability
is never invoked for the failing candidate `/index.json`, refuting the
claim that every query operation re-fetches the same candidate. -/
theorem scan_invalid_hit_advances_counterexample :
    resolveScanAux idHash 0 exBase exFetch [scanC1, scanC2]
        seededScanCache =
      (Outcome.satisfied [1] "/content/index.json" false,
        ⟨[("https://e.com/content/index.json", ⟨[1], "", "", 0, 300⟩)],
          300⟩,
        [Event.cacheDeleted "https://e.com/index.json",
          Event.fetchInvoked "/content/index.json",
          Event.cacheStored "https://e.com/content/index.json"])
    ∧ Event.fetchInvoked "/index.json" ∉
      (resolveScanAux idHash 0 exBase exFetch [scanC1, scanC2]
        seededScanCache).2.2 := by
  decide

/-- C3 amended: in the taxonomies primary loop and the Hugo-native search
loop, a candidate whose unexpired cached payload fails its validator has
the entry deleted first and the SAME candidate then fetched from the
network (the trace shows the deletion before the fetch); in the
content-scan loop (`performContentScanSearch`) the entry is deleted but the
loop advances to the next candidate without fetching this one. -/
theorem invalid_cache_hit_delete_then_refetch (hash : String → String)
    (now : Nat) (base : String) (fetch : String → FetchResult)
    (c : Candidate) (st : Cache) (e : CacheEntry)
    (hlook : st.lookup (candKey hash base c) = some e)
    (hfresh : e.isExpired now = false)
    (hval : c.validator e.data = false) :
    stepCandidate hash now base fetch c st =
      fetchCandidate hash now base fetch c
        (st.deleteKey (candKey hash base c))
        [Event.cacheDeleted (candKey hash base c)]
    ∧ (∃ rest, (stepCandidate hash now base fetch c st).2.2 =
        Event.cacheDeleted (candKey hash base c)
          :: Event.fetchInvoked c.path :: rest)
    ∧ stepCandidateScan hash now base fetch c st =
        (none, st.deleteKey (candKey hash base c),
          [Event.cacheDeleted (candKey hash base c)]) := by
  have h1 : stepCandidate hash now base fetch c st =
      fetchCandidate hash now base fetch c
        (st.deleteKey (candKey hash base c))
        [Event.cacheDeleted (candKey hash base c)] := by
    simp [stepCandidate, Cache.get, hlook, hfresh, hval]
  refine ⟨h1, ?_, ?_⟩
  · rw [h1]
    unfold fetchCandidate
    cases fetch c.path with
    | transportError => exact ⟨[], rfl⟩
    | response status body etag lastModified =>
      by_cases hs : status = 200
      · by_cases hv : c.validator body = true
        · refine ⟨[Event.cacheStored (candKey hash base c)], ?_⟩
          simp [hs, hv]
        · refine ⟨[], ?_⟩
          simp [hs, hv]
      · exact ⟨[], by simp [hs]⟩
  · simp [stepCandidateScan, Cache.get, hlook, hfresh, hval]

theorem invalid_cache_hit_delete_then_refetch_witness :
    stepCandidate idHash 0 exBase exFetch scanC1 seededScanCache =
      fetchCandidate idHash 0 exBase exFetch scanC1
        (seededScanCache.deleteKey (candKey idHash exBase scanC1))
        [Event.cacheDeleted (candKey idHash exBase scanC1)]
    ∧ stepCandidateScan idHash 0 exBase exFetch scanC1 seededScanCache =
      (none, seededScanCache.deleteKey (candKey idHash exBase scanC1),
        [Event.cacheDeleted (candKey idHash exBase scanC1)]) :=
  ⟨(invalid_cache_hit_delete_then_refetch idHash 0 exBase exFetch scanC1
      seededScanCache ⟨[9], "", "", 0, 300⟩ (by decide) (by decide)
      (by decide)).1,
    (invalid_cache_hit_delete_then_refetch idHash 0 exBase exFetch scanC1
      seededScanCache ⟨[9], "", "", 0, 300⟩ (by decide) (by decide)
      (by decide)).2.2⟩

/-! ## Which payloads the resolution loops write to the cache -/

theorem get_snd_lookup_sub (now : Nat) (st : Cache) (k0 k : String)
    (e : CacheEntry) (h : (Cache.get now st k0).2.lookup k = some e) :
    st.lookup k = some e := by
  unfold Cache.get at h
  split at h
  · exact h
  · split at h
    · rw [show (((none : Option Bytes), st.deleteKey k0)).2 =
          st.deleteKey k0 from rfl, Cache.lookup_deleteKey] at h
      by_cases hk : k = k0
      · rw [if_pos hk] at h; cases h
      · rwa [if_neg hk] at h
    · exact h

theorem fetchCandidate_lookup (hash : String → String) (now : Nat)
    (base : String) (fetch : String → FetchResult) (c : Candidate)
    (st : Cache) (ev : List Event) (k : String) (e : CacheEntry)
    (h : (fetchCandidate hash now base fetch c st ev).2.1.lookup k =
      some e) :
    st.lookup k = some e ∨
      (k = candKey hash base c ∧ c.validator e.data = true) := by
  unfold fetchCandidate at h
  cases hf : fetch c.path with
  | transportError => rw [hf] at h; exact Or.inl h
  | response status body etag lastModified =>
    rw [hf] at h
    by_cases hs : status = 200
    · by_cases hv : c.validator body = true
      · simp only [hs, hv, if_true] at h
        rw [Cache.lookup_setEntry] at h
        by_cases hk : k = candKey hash base c
        · rw [if_pos hk] at h
          right
          refine ⟨hk, ?_⟩
          cases h
          exact hv
        · rw [if_neg hk] at h; exact Or.inl h
      · simp only [hs, hv, if_true, if_false] at h; exact Or.inl h
    · simp only [hs, if_false] at h; exact Or.inl h

theorem stepCandidate_lookup (hash : String → String) (now : Nat)
    (base : String) (fetch : String → FetchResult) (c : Candidate)
    (st : Cache) (k : String) (e : CacheEntry)
    (h : (stepCandidate hash now base fetch c st).2.1.lookup k = some e) :
    st.lookup k = some e ∨
      (k = candKey hash base c ∧ c.validator e.data = true) := by
  unfold stepCandidate at h
  split at h
  case _ data st1 hg =>
    have hsub : ∀ e', st1.lookup k = some e' → st.lookup k = some e' := by
      intro e' h'
      have hg2 := get_snd_lookup_sub now st (candKey hash base c) k e'
      rw [hg] at hg2
      exact hg2 h'
    split at h
    · exact Or.inl (hsub e h)
    · rcases fetchCandidate_lookup hash now base fetch c
          (st1.deleteKey (candKey hash base c))
          [Event.cacheDeleted (candKey hash base c)] k e h with h' | h'
      · rw [Cache.lookup_deleteKey] at h'
        by_cases hk : k = candKey hash base c
        · rw [if_pos hk] at h'; cases h'
        · rw [if_neg hk] at h'
          exact Or.inl (hsub e h')
      · exact Or.inr h'
  case _ st1 hg =>
    have hsub : ∀ e', st1.lookup k = some e' → st.lookup k = some e' := by
      intro e' h'
      have hg2 := get_snd_lookup_sub now st (candKey hash base c) k e'
      rw [hg] at hg2
      exact hg2 h'
    rcases fetchCandidate_lookup hash now base fetch c st1 [] k e h with
        h' | h'
    · exact Or.inl (hsub e h')
    · exact Or.inr h'

def failCheck : Bytes → Bool := fun _ => false

/-- C4 counterexample: the taxonomies individual-endpoint discovery loop
caches a fetched 200 body unconditionally — here the body `[1]` fails the
discovery check (no taxonomy is reported, the name list is empty), yet the
body has been written to the cache under the endpoint's key. -/
theorem discovery_caches_unvalidated_counterexample :
    discoverLoop idHash 0 exBase exFetch failCheck
        ["/categories/index.json"] emptyCache =
      ([],
        ⟨[("https://e.com/categories/index.json", ⟨[1], "", "", 0, 300⟩)],
          300⟩,
        [Event.fetchInvoked "/categories/index.json",
          Event.cacheStored "https://e.com/categories/index.json"])
    ∧ failCheck [1] = false := by
  decide

/-- One candidate step of the content-scan loop only removes entries or
inserts a validated one: its middle branch (invalid cached hit) deletes the
candidate's key without fetching, and its network branch is the shared
`fetchCandidate`. -/
theorem stepCandidateScan_lookup (hash : String → String) (now : Nat)
    (base : String) (fetch : String → FetchResult) (c : Candidate)
    (st : Cache) (k : String) (e : CacheEntry)
    (h : (stepCandidateScan hash now base fetch c st).2.1.lookup k =
      some e) :
    st.lookup k = some e ∨
      (k = candKey hash base c ∧ c.validator e.data = true) := by
  unfold stepCandidateScan at h
  split at h
  case _ data st1 hg =>
    have hsub : ∀ e', st1.lookup k = some e' → st.lookup k = some e' := by
      intro e' h'
      have hg2 := get_snd_lookup_sub now st (candKey hash base c) k e'
      rw [hg] at hg2
      exact hg2 h'
    split at h
    · exact Or.inl (hsub e h)
    · rw [show ((none : Option (Bytes × Bool)),
          st1.deleteKey (candKey hash base c),
          [Event.cacheDeleted (candKey hash base c)]).2.1 =
          st1.deleteKey (candKey hash base c) from rfl,
        Cache.lookup_deleteKey] at h
      by_cases hk : k = candKey hash base c
      · rw [if_pos hk] at h; cases h
      · rw [if_neg hk] at h
        exact Or.inl (hsub e h)
  case _ st1 hg =>
    have hsub : ∀ e', st1.lookup k = some e' → st.lookup k = some e' := by
      intro e' h'
      have hg2 := get_snd_lookup_sub now st (candKey hash base c) k e'
      rw [hg] at hg2
      exact hg2 h'
    rcases fetchCandidate_lookup hash now base fetch c st1 [] k e h with
        h' | h'
    · exact Or.inl (hsub e h')
    · exact Or.inr h'

theorem resolveAux_lookup_invariant (hash : String → String) (now : Nat)
    (base : String) (fetch : String → FetchResult) (cs : List Candidate)
    (st : Cache) (out : Outcome) (st' : Cache) (ev : List Event)
    (hrun : resolveAux hash now base fetch cs st = (out, st', ev)) :
    ∀ k e, st'.lookup k = some e →
      st.lookup k = some e ∨
        ∃ c ∈ cs, k = candKey hash base c ∧ c.validator e.data = true := by
  induction cs generalizing st out ev with
  | nil =>
    simp only [resolveAux, Prod.mk.injEq] at hrun
    obtain ⟨-, hst, -⟩ := hrun
    intro k e h
    rw [← hst] at h
    exact Or.inl h
  | cons c0 cs ih =>
    simp only [resolveAux] at hrun
    cases hstep : stepCandidate hash now base fetch c0 st with
    | mk o rest =>
      obtain ⟨sta, eva⟩ := rest
      rw [hstep] at hrun
      cases o with
      | some v =>
        obtain ⟨data, b⟩ := v
        simp only [Prod.mk.injEq] at hrun
        obtain ⟨-, hst, -⟩ := hrun
        intro k e h
        rw [← hst] at h
        have hsl := stepCandidate_lookup hash now base fetch c0 st k e
        rw [hstep] at hsl
        rcases hsl h with h' | h'
        · exact Or.inl h'
        · exact Or.inr ⟨c0, List.mem_cons_self c0 cs, h'⟩
      | none =>
        simp only at hrun
        cases hrec : resolveAux hash now base fetch cs sta with
        | mk out2 rest2 =>
          obtain ⟨stb, evb⟩ := rest2
          rw [hrec] at hrun
          simp only [Prod.mk.injEq] at hrun
          obtain ⟨-, hst, -⟩ := hrun
          rw [hst] at hrec
          intro k e h
          rcases ih sta out2 evb hrec k e h with h' | ⟨c1, hc1, hk1⟩
          · have hsl := stepCandidate_lookup hash now base fetch c0 st k e
            rw [hstep] at hsl
            rcases hsl h' with h'' | h''
            · exact Or.inl h''
            · exact Or.inr ⟨c0, List.mem_cons_self c0 cs, h''⟩
          · exact Or.inr ⟨c1, List.mem_cons_of_mem c0 hc1, hk1⟩

theorem resolveScanAux_lookup_invariant (hash : String → String)
    (now : Nat) (base : String) (fetch : String → FetchResult)
    (cs : List Candidate) (st : Cache) (out : Outcome) (st' : Cache)
    (ev : List Event)
    (hrun : resolveScanAux hash now base fetch cs st = (out, st', ev)) :
    ∀ k e, st'.lookup k = some e →
      st.lookup k = some e ∨
        ∃ c ∈ cs, k = candKey hash base c ∧ c.validator e.data = true := by
  induction cs generalizing st out ev with
  | nil =>
    simp only [resolveScanAux, Prod.mk.injEq] at hrun
    obtain ⟨-, hst, -⟩ := hrun
    intro k e h
    rw [← hst] at h
    exact Or.inl h
  | cons c0 cs ih =>
    simp only [resolveScanAux] at hrun
    cases hstep : stepCandidateScan hash now base fetch c0 st with
    | mk o rest =>
      obtain ⟨sta, eva⟩ := rest
      rw [hstep] at hrun
      cases o with
      | some v =>
        obtain ⟨data, b⟩ := v
        simp only [Prod.mk.injEq] at hrun
        obtain ⟨-, hst, -⟩ := hrun
        intro k e h
        rw [← hst] at h
        have hsl := stepCandidateScan_lookup hash now base fetch c0 st k e
        rw [hstep] at hsl
        rcases hsl h with h' | h'
        · exact Or.inl h'
        · exact Or.inr ⟨c0, List.mem_cons_self c0 cs, h'⟩
      | none =>
        simp only at hrun
        cases hrec : resolveScanAux hash now base fetch cs sta with
        | mk out2 rest2 =>
          obtain ⟨stb, evb⟩ := rest2
          rw [hrec] at hrun
          simp only [Prod.mk.injEq] at hrun
          obtain ⟨-, hst, -⟩ := hrun
          rw [hst] at hrec
          intro k e h
          rcases ih sta out2 evb hrec k e h with h' | ⟨c1, hc1, hk1⟩
          · have hsl := stepCandidateScan_lookup hash now base fetch c0 st
              k e
            rw [hstep] at hsl
            rcases hsl h' with h'' | h''
            · exact Or.inl h''
            · exact Or.inr ⟨c0, List.mem_cons_self c0 cs, h''⟩
          · exact Or.inr ⟨c1, List.mem_cons_of_mem c0 hc1, hk1⟩

/-- C4 amended: in each of the multi-candidate resolution loops — the
taxonomies primary loop and the Hugo-native search loop (`resolveAux` over
`stepCandidate` / `fetchCandidate`) and the content-scan loop
(`resolveScanAux` over `stepCandidateScan`) — every entry of the final
cache state either was already present initially or is keyed by some
candidate and holds a payload passing that candidate's validator; the
taxonomies individual-endpoint discovery loop, by contrast, caches 200
bodies without validation. -/
theorem resolve_only_caches_validated (hash : String → String) (now : Nat)
    (base : String) (fetch : String → FetchResult) (cs : List Candidate)
    (st : Cache) (out : Outcome) (st' : Cache) (ev : List Event) :
    (resolveAux hash now base fetch cs st = (out, st', ev) →
      ∀ k e, st'.lookup k = some e →
        st.lookup k = some e ∨
          ∃ c ∈ cs, k = candKey hash base c ∧ c.validator e.data = true)
    ∧ (resolveScanAux hash now base fetch cs st = (out, st', ev) →
      ∀ k e, st'.lookup k = some e →
        st.lookup k = some e ∨
          ∃ c ∈ cs, k = candKey hash base c ∧ c.validator e.data = true) :=
  ⟨resolveAux_lookup_invariant hash now base fetch cs st out st' ev,
    resolveScanAux_lookup_invariant hash now base fetch cs st out st' ev⟩

theorem resolve_only_caches_validated_witness :
    (emptyCache.lookup "https://e.com/b" =
        some ⟨[1], "", "", 0, 300⟩
      ∨ ∃ c ∈ [candA, candB],
        "https://e.com/b" = candKey idHash exBase c ∧
          c.validator [1] = true)
    ∧ (seededScanCache.lookup "https://e.com/content/index.json" =
        some ⟨[1], "", "", 0, 300⟩
      ∨ ∃ c ∈ [scanC1, scanC2],
        "https://e.com/content/index.json" = candKey idHash exBase c ∧
          c.validator [1] = true) :=
  ⟨(resolve_only_caches_validated idHash 0 exBase exFetch [candA, candB]
      emptyCache
      (Outcome.satisfied [1] "/b" false)
      ⟨[("https://e.com/b", ⟨[1], "", "", 0, 300⟩)], 300⟩
      [Event.fetchInvoked "/a", Event.fetchInvoked "/b",
        Event.cacheStored "https://e.com/b"]).1
      (by decide) "https://e.com/b" ⟨[1], "", "", 0, 300⟩ (by decide),
    (resolve_only_caches_validated idHash 0 exBase exFetch
      [scanC1, scanC2] seededScanCache
      (Outcome.satisfied [1] "/content/index.json" false)
      ⟨[("https://e.com/content/index.json", ⟨[1], "", "", 0, 300⟩)], 300⟩
      [Event.cacheDeleted "https://e.com/index.json",
        Event.fetchInvoked "/content/index.json",
        Event.cacheStored "https://e.com/content/index.json"]).2
      (by decide) "https://e.com/content/index.json"
      ⟨[1], "", "", 0, 300⟩ (by decide)⟩

/-- C8 counterexample: `Cache.Validate` is a Cache operation that performs
network I/O — at this concrete state (entry under `"k"` expired at time 10)
it issues an HTTP `HEAD` request to the origin, refuting the claim that no
Cache operation has a fetch/HTTP effect. -/
theorem cache_validate_performs_http_counterexample :
    (Cache.validateEntry 10 (fun _ => true) (fun _ => some 200)
        ⟨[("k", ⟨[1], "", "", 0, 5⟩)], 5⟩ "k" "https://e.com/k").2 =
      ["https://e.com/k"] := by
  decide

/-- C8 amended: every Cache operation except `Validate` (`get`, `set`,
`delete`, `clear`, `cleanExpired`, `stats`, `buildKey`) is modelled as a
pure function of the cache state and the clock with no HTTP effect, and
`Validate` issues an HTTP request exactly when the key holds an entry that
is expired and the conditional request can be constructed — an unexpired
hit, a miss, or a malformed request URL produce no network traffic. -/
theorem cache_validate_http_characterization (now : Nat)
    (mkReqOk : String → Bool) (doHead : String → Option Nat) (c : Cache)
    (k url : String) :
    (Cache.validateEntry now mkReqOk doHead c k url).2 ≠ [] ↔
      ∃ e, c.lookup k = some e ∧ e.isExpired now = true ∧
        mkReqOk url = true := by
  unfold Cache.validateEntry
  cases hl : c.lookup k with
  | none => simp
  | some e =>
    by_cases hex : e.isExpired now = true
    · by_cases hmk : mkReqOk url = true
      · cases hd : doHead url with
        | none => simp [hex, hmk]
        | some status =>
          by_cases hs : status = 304 <;> simp [hex, hmk, hs]
      · rw [Bool.not_eq_true] at hmk
        simp [hex, hmk]
    · rw [Bool.not_eq_true] at hex
      simp [hex]

/-- Same candidate up to the enumeration order of its query-parameter
mapping (the only run-to-run variation Go's map iteration can introduce):
equal path, equal validator, parameter lists that are permutations of each
other with unique names. -/
def sameUpToParamOrder (c c' : Candidate) : Prop :=
  c.path = c'.path ∧ c.validator = c'.validator ∧
    c.params.Perm c'.params ∧ (c.params.map Prod.fst).Nodup

theorem stepCandidate_param_order_congr (hash : String → String)
    (now : Nat) (base : String) (fetch : String → FetchResult)
    {c c' : Candidate} (h : sameUpToParamOrder c c') (st : Cache) :
    stepCandidate hash now base fetch c st =
      stepCandidate hash now base fetch c' st := by
  obtain ⟨hp, hv, hperm, hnd⟩ := h
  have hkey : candKey hash base c = candKey hash base c' := by
    unfold candKey
    rw [hp]
    exact buildKey_eq_of_perm hash base c'.path hperm hnd
  unfold stepCandidate fetchCandidate
  rw [hkey, hp, hv]

/-- C9: the resolution is deterministic: for a fixed ordered candidate
list, a fixed cache state, and a fetch capability with fixed responses per
path, the outcome, payload, final cache state and event trace are the same
across runs — in particular they do not depend on the enumeration order of
any candidate's query-parameter mapping, the only run-to-run variation in
the source. -/
theorem resolve_deterministic (hash : String → String) (now : Nat)
    (base : String) (fetch : String → FetchResult)
    (cs cs' : List Candidate) (st : Cache)
    (h : List.Forall₂ sameUpToParamOrder cs cs') :
    resolveAux hash now base fetch cs st =
      resolveAux hash now base fetch cs' st := by
  induction h generalizing st with
  | nil => rfl
  | @cons c c' cs cs' hc _ ih =>
    have hstep := stepCandidate_param_order_congr hash now base fetch hc st
    simp only [resolveAux, hstep, hc.1]
    cases hg : stepCandidate hash now base fetch c' st with
    | mk o rest =>
      obtain ⟨st1, ev⟩ := rest
      cases o with
      | some v => rfl
      | none => simp only [ih st1]

theorem resolve_deterministic_witness :
    resolveAux idHash 0 exBase exFetch
      [⟨"/s", [("a", "1"), ("b", "2")], exValidator⟩] emptyCache =
    resolveAux idHash 0 exBase exFetch
      [⟨"/s", [("b", "2"), ("a", "1")], exValidator⟩] emptyCache :=
  resolve_deterministic idHash 0 exBase exFetch _ _ emptyCache
    (List.Forall₂.cons ⟨rfl, rfl, by decide, by decide⟩ List.Forall₂.nil)

/-- C10: when `SearchRequest.Validate` succeeds, the request's limit lies
in `[1, 100]` afterwards (a zero limit becomes the default 20, any other
out-of-range limit is rejected with an error), and the result list
`Execute` produces after applying the limit has at most `limit` entries. -/
theorem validate_limit_bounds (r r' : SearchRequest) :
    (SearchRequest.validateReq r = Except.ok r' →
      1 ≤ r'.limit ∧ r'.limit ≤ 100 ∧
      ∀ rs : List Bytes,
        ((applyLimit rs r'.limit).length : Int) ≤ r'.limit)
    ∧ (r.limit = 0 → r.hugoSitePath ≠ "" → r.query ≠ "" →
        SearchRequest.validateReq r = Except.ok { r with limit := 20 })
    ∧ (r.limit ≠ 0 → (r.limit < 1 ∨ r.limit > 100) →
        ∃ msg, SearchRequest.validateReq r = Except.error msg) := by
  refine ⟨?_, ?_, ?_⟩
  · intro h
    unfold SearchRequest.validateReq at h
    split_ifs at h with h1 h2 h3 h4
    · have hl20 : r'.limit = 20 := by
        injection h with h'
        rw [← h']
      refine ⟨by omega, by omega, ?_⟩
      intro rs
      unfold applyLimit
      split_ifs with hlen
      · rw [List.length_take]
        omega
      · omega
    · have hl : r'.limit = r.limit := by
        injection h with h'
        rw [← h']
      rcases not_or.mp h4 with ⟨ha, hb⟩
      refine ⟨by omega, by omega, ?_⟩
      intro rs
      unfold applyLimit
      split_ifs with hlen
      · rw [List.length_take]
        omega
      · omega
  · intro h0 hpath hquery
    simp [SearchRequest.validateReq, hpath, hquery, h0]
  · intro hne hout
    unfold SearchRequest.validateReq
    by_cases h1 : r.hugoSitePath = ""
    · rw [if_pos h1]
      exact ⟨_, rfl⟩
    · rw [if_neg h1]
      by_cases h2 : r.query = ""
      · rw [if_pos h2]
        exact ⟨_, rfl⟩
      · rw [if_neg h2, if_neg hne, if_pos hout]
        exact ⟨_, rfl⟩

theorem validate_limit_bounds_witness :
    SearchRequest.validateReq ⟨"https://e.com", "golang", "", "", "", 0⟩ =
      Except.ok ⟨"https://e.com", "golang", "", "", "", 20⟩
    ∧ ((applyLimit ([[1], [2], [3]] : List Bytes)
        (⟨"https://e.com", "golang", "", "", "", 20⟩ :
          SearchRequest).limit).length : Int) ≤
      (⟨"https://e.com", "golang", "", "", "", 20⟩ :
        SearchRequest).limit :=
  ⟨(validate_limit_bounds ⟨"https://e.com", "golang", "", "", "", 0⟩
      ⟨"https://e.com", "golang", "", "", "", 20⟩).2.1 rfl
      (by decide) (by decide),
    ((validate_limit_bounds ⟨"https://e.com", "golang", "", "", "", 0⟩
      ⟨"https://e.com", "golang", "", "", "", 20⟩).1 rfl).2.2
      [[1], [2], [3]]⟩

end HugoReader
